import Mathlib

set_option linter.unusedVariables false

/- Verification of behavioural claims about the pytopo laboratory toolkit.
   The relevant Python fragments are shallowly embedded: pure functions
   become Lean functions, raised exceptions become Except values, numpy
   integer arrays become lists of naturals with explicit wrap-around, and
   the float arithmetic of the acquisition controllers is modelled over
   the rationals. -/

/-- Python exceptions raised by the embedded fragments. -/
inductive PyExc : Type where
  | notImplementedError (msg : String)
  | typeError (msg : String)
  | valueError (msg : String)
  | indexError (msg : String)
  deriving DecidableEq

/-- What a Python raise statement can be handed in this code base: an
    exception instance, or the NotImplemented constant (which is not an
    exception). -/
inductive PyRaisable : Type where
  | exc (e : PyExc)
  | notImplementedConst
  deriving DecidableEq

/-- Semantics of the Python raise statement: raising a value that is not
    an exception instance makes the interpreter raise a TypeError
    (CPython: exceptions must derive from BaseException). -/
def pyRaise (r : PyRaisable) : PyExc :=
  match r with
  | .exc e => e
  | .notImplementedConst => .typeError "exceptions must derive from BaseException"

/-- BaseSweepObject._generator_factory (pytopo/sweep/base.py): the body is
    a single raise of NotImplementedError with this message. -/
def BaseSweepObject_generator_factory : Except PyExc Unit :=
  .error (pyRaise (.exc (.notImplementedError "Please subclass BaseSweepObject")))

/-- BaseAcqCtl.data_shape (pytopo/rf/alazar/acquisition_controllers.py):
    raises a bare NotImplementedError. -/
def BaseAcqCtl_data_shape : Except PyExc (List Nat) :=
  .error (pyRaise (.exc (.notImplementedError "")))

/-- BaseAcqCtl.process_buffer (pytopo/rf/alazar/acquisition_controllers.py):
    raises a bare NotImplementedError. -/
def BaseAcqCtl_process_buffer : Except PyExc (List Nat) :=
  .error (pyRaise (.exc (.notImplementedError "")))

/-- Transformation.forward (pytopo/pinmap/transformations.py): the body is
    raise NotImplemented, i.e. it raises the NotImplemented constant. -/
def Transformation_forward (value : Int) : Except PyExc Int :=
  .error (pyRaise .notImplementedConst)

/-- Transformation.backward (pytopo/pinmap/transformations.py): the body is
    raise NotImplemented, i.e. it raises the NotImplemented constant. -/
def Transformation_backward (value : Int) : Except PyExc Int :=
  .error (pyRaise .notImplementedConst)

/-- UnityTransformation.forward (pytopo/pinmap/transformations.py). -/
def UnityTransformation_forward (value : Int) : Int := value

/-- UnityTransformation.backward (pytopo/pinmap/transformations.py). -/
def UnityTransformation_backward (value : Int) : Int := value

/-- AddOneTransformation.forward (pytopo/pinmap/transformations.py). -/
def AddOneTransformation_forward (value : Int) : Int := value + 1

/-- AddOneTransformation.backward (pytopo/pinmap/transformations.py). -/
def AddOneTransformation_backward (value : Int) : Int := value - 1

/-- Whether the pattern sep occurs in s starting at index i. -/
def occursAt (s sep : List Char) (i : Nat) : Bool :=
  decide ((s.drop i).take sep.length = sep)

/-- Index of the leftmost occurrence of sep in s, none when absent. -/
def firstOcc? (s sep : List Char) : Option Nat :=
  (List.range (s.length + 1)).find? (occursAt s sep)

/-- Worker for pySplit; the fuel only bounds the recursion depth and a
    fuel of s.length + 1 is always sufficient (charSplitAux_fuel below). -/
def charSplitAux (sep : List Char) : Nat → List Char → List (List Char)
  | 0, s => [s]
  | fuel + 1, s =>
    match firstOcc? s sep with
    | none => [s]
    | some i => s.take i :: charSplitAux sep fuel (s.drop (i + sep.length))

/-- Model of Python str.split(sep) for a nonempty separator: the pieces of
    s between consecutive non-overlapping leftmost occurrences of sep. -/
def pySplit (s sep : String) : List String :=
  if sep.toList = [] then [s]
  else (charSplitAux sep.toList (s.toList.length + 1) s.toList).map
    fun cs => String.mk cs

/-- Value of a nonempty all-digit character list, none otherwise. -/
def digitsVal? (cs : List Char) : Option Nat :=
  if cs = [] then none
  else if cs.all Char.isDigit then
    some (cs.foldl (fun acc c => 10 * acc + (c.toNat - 48)) 0)
  else none

/-- Python str.strip with no argument: drop surrounding whitespace. -/
def pyStrip (cs : List Char) : List Char :=
  ((cs.dropWhile Char.isWhitespace).reverse.dropWhile Char.isWhitespace).reverse

/-- ASCII model of the Python built-in int() applied to a string: strip
    surrounding whitespace, allow one optional sign, then require one or
    more decimal digits; none where the Python call raises ValueError.
    (The call sites below never produce underscores inside the digits.) -/
def pyInt? (s : String) : Option Int :=
  match pyStrip s.toList with
  | [] => none
  | c :: cs =>
    if c = '-' then (digitsVal? cs).map (fun n => -(n : Int))
    else if c = '+' then (digitsVal? cs).map (fun n => (n : Int))
    else (digitsVal? (c :: cs)).map (fun n => (n : Int))

/-- Python str.zfill: left-pad with zeros to the given total width,
    keeping a leading sign in front of the padding. -/
def zfill (s : String) (width : Nat) : String :=
  match s.toList with
  | c :: cs =>
    if c = '-' ∨ c = '+' then
      String.mk [c] ++ String.mk (List.replicate (width - s.length) '0') ++ String.mk cs
    else String.mk (List.replicate (width - s.length) '0') ++ s
  | [] => String.mk (List.replicate width '0')

/-- One iteration of the scanning loop of BaseMeasurement._get_next_data_idx
    (experiment/measurement.py): the value of
    int(f.split(pfx + "-#")[1].split("_")[0]) for a file-name stem f, with
    the bare except that swallows IndexError/ValueError modelled as none. -/
def parseIdx? (pfx stem : String) : Option Int :=
  match pySplit stem (pfx ++ "-#") with
  | _ :: second :: _ =>
    match pySplit second "_" with
    | piece :: _ => pyInt? piece
    | [] => none
  | _ => none

/-- The DATAIDXPAD constant of experiment/measurement.py. -/
def DATAIDXPAD : Nat := 4

/-- BaseMeasurement._get_next_data_idx (experiment/measurement.py). The
    folder argument is none when os.path.exists is false and otherwise the
    list of file-name stems of the directory listing (os.listdir composed
    with os.path.splitext is abstracted into the given stems). -/
def get_next_data_idx (folder : Option (List String)) (pfx : String) : String :=
  match folder with
  | none => "-#" ++ zfill "0" DATAIDXPAD
  | some stems =>
    match stems.filterMap (parseIdx? pfx) with
    | [] => "-#" ++ zfill "0" DATAIDXPAD
    | i :: is => "-#" ++ zfill (toString (is.foldl max i + 1)) DATAIDXPAD

/-- ASCII model of Python str.lower. -/
def pyLower (s : String) : String :=
  String.mk (s.toList.map Char.toLower)

/-- ASCII model of Python str.isidentifier: nonempty, first character a
    letter or underscore, the rest letters, digits or underscores. -/
def pyIsIdentifier (s : String) : Bool :=
  match s.toList with
  | [] => false
  | c :: cs => (c.isAlpha || c = '_') && cs.all (fun d => d.isAlphanum || d = '_')

/-- The result record of a successful QcodesParamSpec construction
    (pytopo/sweep/param_spec.py). -/
structure QcodesParamSpec where
  name : String
  type : String
  label : String
  unit : String
  inferred_from : List String
  depends_on : List String
  deriving DecidableEq

/-- The Python value passed as the paramtype argument: a str, or a value
    of any other type. -/
inductive PyStrArg : Type where
  | str (s : String)
  | nonStr
  deriving DecidableEq

/-- An element of an inferred_from / depends_on sequence: a string or a
    QcodesParamSpec. -/
inductive DepElem : Type where
  | str (s : String)
  | spec (ps : QcodesParamSpec)
  deriving DecidableEq

/-- The inferred_from / depends_on argument of QcodesParamSpec: omitted
    (None), a bare string, or a sequence of strings and QcodesParamSpecs. -/
inductive DepsArg : Type where
  | none
  | bareStr (s : String)
  | seq (elems : List DepElem)
  deriving DecidableEq

/-- The allowed_types class attribute of QcodesParamSpec. -/
def allowed_types : List String := ["array", "numeric", "text", "complex"]

/-- Names extracted from an inferred_from / depends_on argument as done by
    the extend calls in QcodesParamSpec.__init__: a QcodesParamSpec
    contributes its name, a string contributes itself, None contributes
    nothing. -/
def depsArgNames : DepsArg → List String
  | .none => []
  | .bareStr s => [s]
  | .seq elems => elems.map (fun e => match e with | .str s => s | .spec ps => ps.name)

/-- QcodesParamSpec.__init__ (pytopo/sweep/param_spec.py), following the
    order of its checks; metadata handling is omitted (it does not affect
    any checked field). -/
def QcodesParamSpec_init (name : String) (paramtype : PyStrArg)
    (label unit : Option String) (inferred_from depends_on : DepsArg) :
    Except PyExc QcodesParamSpec :=
  match paramtype with
  | .nonStr => .error (pyRaise (.exc (.valueError "Paramtype must be a string.")))
  | .str pt =>
    if decide (pyLower pt ∈ allowed_types) = false then
      .error (pyRaise (.exc (.valueError "Illegal paramtype. Must be on of the allowed types")))
    else if pyIsIdentifier name = false then
      .error (pyRaise (.exc (.valueError "Invalid name. Only valid python identifier names are allowed")))
    else
      match inferred_from with
      | .bareStr _ =>
        .error (pyRaise (.exc (.valueError "got a string as inferred_from. It needs a Sequence of QcodesParamSpecs or strings")))
      | ifr =>
        match depends_on with
        | .bareStr _ =>
          .error (pyRaise (.exc (.valueError "got a string as depends_on. It needs a Sequence of QcodesParamSpecs or strings")))
        | dep =>
          .ok ⟨name, pyLower pt, label.getD "", unit.getD "",
               depsArgNames ifr, depsArgNames dep⟩

/-- One 4-line axis block written by write_spyview_meta: the axis size,
    its first value, its last value and its name; none when vals is empty
    (vals[0] would raise IndexError). Axis values are modelled as integers
    because the claim concerns the block structure of the file, not numpy
    float formatting. -/
def axisBlock (n : String) (vals : List Int) : Option (List String) :=
  match vals.head?, vals.getLast? with
  | some v0, some v1 => some [toString vals.length, toString v0, toString v1, n]
  | _, _ => none

/-- The axis-block loop of write_spyview_meta: one block per triple, none
    as soon as one block raises. -/
def axisBlocks? : List (Nat × String × List Int) → Option (List (List String))
  | [] => some []
  | t :: ts =>
    match axisBlock t.2.1 t.2.2, axisBlocks? ts with
    | some b, some bs => some (b :: bs)
    | _, _ => none

/-- write_spyview_meta (pytopo/qctools/dataset_export/spyview.py): the
    sequence of lines written to the .meta.txt file, as a list of lines.
    The loop over zip(range(naxes), axes_names, axes_vals) becomes a zip
    of List.range naxes with the zipped name/value lists; none models a
    raised IndexError. -/
def write_spyview_meta (axes_names : List String) (axes_vals : List (List Int))
    (col_names : List String) : Option (List String) :=
  (axisBlocks? ((List.range axes_names.length).zip (axes_names.zip axes_vals))).map
    (fun axisBlocks => axisBlocks.flatten
      ++ (List.replicate (3 - axes_names.length) ["1", "0", "0", "None"]).flatten
      ++ (((List.range' (axes_names.length + 1) col_names.length).zip col_names).map
            (fun p => [toString p.1, p.2])).flatten)

/-- A value stored in a Bag; the sweep2 claims only need one value type. -/
abbrev BagVal := Int

/-- A BagSection of pytopo/sweep2/core.py: a dictionary, modelled as an
    insertion-ordered association list whose keys sectionSet keeps unique. -/
abbrev BagSection := List (String × BagVal)

/-- Python dict assignment d[k] = v on a section: overwrite in place when
    the key is present, append otherwise. -/
def sectionSet (sec : BagSection) (k : String) (v : BagVal) : BagSection :=
  if sec.any (fun p => p.1 == k) then
    sec.map (fun p => if p.1 == k then (k, v) else p)
  else sec ++ [(k, v)]

/-- The Bag of pytopo/sweep2/core.py: a stack of BagSections, bottom of
    the stack first, top of the stack last. -/
abbrev Bag := List BagSection

/-- Bag.val_for: walk the sections from the top of the stack downwards and
    return the first binding found; none models the raised KeyError. -/
def val_for? : Bag → String → Option BagVal
  | [], _ => none
  | sec :: rest, k =>
    match val_for? rest k with
    | some v => some v
    | none => sec.lookup k

/-- Bag.add: set the key in the last section (the top of the stack). The
    empty-bag case would raise IndexError in Python; run only calls add
    right after pushing a section, so it is never reached there. -/
def bagAdd (bag : Bag) (k : String) (v : BagVal) : Bag :=
  match bag.getLast? with
  | some sec => bag.dropLast ++ [sectionSet sec k v]
  | none => bag

/-- A sweep2 Sweep (pytopo/sweep2/core.py): a parameter name, its value
    sequence, and the set_function / prepare_function callbacks. The
    Python defaults bag_through and bag_in are the identity here;
    prepare_function is called for its effect on the bag, so it is
    modelled as returning the bag it may have altered. -/
structure Sweep2 where
  param_name : String
  values : List BagVal
  set_function : Bag → Bag
  prepare_function : Bag → Bag

/-- run (pytopo/sweep2/core.py) with its effects made explicit: the first
    component lists, in call order, the pairs (bag passed to measure_v,
    bag passed to save_data); the second component is the value the
    caller's bag variable holds after the call (the recursive call only
    rebinds its own local, so the parent keeps the bag it popped). -/
def sweep2_run : List Sweep2 → Bag → (Bag → Bag) → List (Bag × Bag) × Bag
  | [], bag, measure_v =>
    ([(bag, measure_v bag)], bag)
  | sw :: rest, bag, measure_v =>
    sw.values.foldl
      (fun acc v =>
        let pushed := acc.2 ++ [([] : BagSection)]
        let added := bagAdd pushed sw.param_name v
        let setb := sw.set_function added
        (acc.1 ++ (sweep2_run rest setb measure_v).1, setb.dropLast))
      ([], sw.prepare_function bag)

/-- The tuples of the Cartesian product of the given value lists, the
    first list varying slowest. -/
def tuples : List (List BagVal) → List (List BagVal)
  | [] => [[]]
  | vs :: rest => vs.flatMap (fun v => (tuples rest).map (fun t => v :: t))

/-- The stack of one-binding sections that run has pushed when it reaches
    the measurement at tuple t of sweeps named names. -/
def tupleSections (names : List String) (t : List BagVal) : Bag :=
  (names.zip t).map (fun p => [p])

/-- A Sweep whose set_function discards the bag: the input on which the
    unrestricted claim fails. -/
def c2CexSweep : Sweep2 := ⟨"x", [0], fun _ => [], fun b => b⟩

/-- Modelled from the spec: param_table.py is not among the provided
    sources; the spec describes a parameter table as simple bookkeeping of
    named independent/dependent values, and base.py reads only its nests
    list (has_chain looks at len(table.nests)). A table is therefore
    modelled by its nests, each nest being a group of parameter names. -/
structure ParamTable where
  nests : List (List String)
  deriving DecidableEq

/-- The data of a sweep object that Nest.__init__ (pytopo/sweep/base.py)
    consults: its parameter table and its measurable flag. -/
structure SweepObjMeta where
  parameter_table : ParamTable
  measurable : Bool
  deriving DecidableEq

/-- BaseSweepObject.has_chain (pytopo/sweep/base.py):
    len(self.parameter_table.nests) > 1. -/
def has_chain (so : SweepObjMeta) : Bool :=
  decide (so.parameter_table.nests.length > 1)

/-- Modelled from the spec: param_table.prod combines the tables of nested
    sweep objects; nesting merges the groups into one joint nest. Only its
    totality matters for the constructor claim. -/
def param_table_prod (tables : List ParamTable) : ParamTable :=
  ⟨[(tables.map ParamTable.nests).flatten.flatten]⟩

/-- Nest.__init__ (pytopo/sweep/base.py): TypeError when any sweep object
    other than the last has a chain, then TypeError when any other than
    the last is measurable; afterwards sweep_objects[-1].measurable is
    read (IndexError on an empty argument tuple) and the parameter table
    is the product of the member tables. -/
def Nest_init (sweep_objects : List SweepObjMeta) : Except PyExc SweepObjMeta :=
  if sweep_objects.dropLast.any (fun so => has_chain so) then
    .error (pyRaise (.exc (.typeError "Cannot nest in chained sweep object")))
  else if sweep_objects.dropLast.any (fun so => so.measurable) then
    .error (pyRaise (.exc (.typeError "In a nest, only the last sweep object may be measurable")))
  else
    match sweep_objects.getLast? with
    | none => .error (pyRaise (.exc (.indexError "tuple index out of range")))
    | some last =>
      .ok ⟨param_table_prod (sweep_objects.map SweepObjMeta.parameter_table),
           last.measurable⟩

/-- The store of current QCoDeS parameter values that the test fixtures of
    pytopo/sweep/tests/test_base.py read and write, latest write first. -/
abbrev PStore := List (String × Int)

/-- Parameter.set of the fixture setter: record the new value. -/
def PStore.set (s : PStore) (k : String) (v : Int) : PStore := (k, v) :: s

/-- Parameter.get of the fixture getter: the latest value set, 0 before
    any set (the generators below only read after setting). -/
def PStore.get (s : PStore) (k : String) : Int := (s.lookup k).getD 0

/-- A result dictionary yielded by a sweep object, insertion-ordered. -/
abbrev PDict := List (String × Int)

/-- Python dict.update as used in Nest._two_product: result1.update(result2)
    keeps result1's insertion order, overwrites values at keys present in
    result2, and appends result2's new keys in their order. -/
def dictUpdate (d1 d2 : PDict) : PDict :=
  d1.map (fun p => match d2.lookup p.1 with | some w => (p.1, w) | none => p)
    ++ d2.filter (fun q => (d1.lookup q.1).isNone)

/-- Iteration semantics of a sweep object (pytopo/sweep/base.py). The code
    consumes sweep objects only through for loops (directly or via list),
    and iterating restarts the generator, so a sweep object is modelled by
    its loop behaviour: given a parameter store, a list accumulator, and a
    loop body receiving each yielded dictionary together with the store at
    the yield, it threads store and accumulator through the loop. -/
def SweepIter : Type :=
  PStore → List PDict →
    (PDict → PStore → List PDict → PStore × List PDict) →
    PStore × List PDict

/-- Sweep (pytopo/sweep/base.py) with the indep_params fixture setter of
    tests/test_base.py: for each point, set the parameter, then yield the
    one-entry dictionary returned by the set_function. -/
def sweepIter (name : String) (vals : List Int) : SweepIter :=
  fun s acc body =>
    vals.foldl (fun st v => body [(name, v)] (PStore.set st.1 name v) st.2) (s, acc)

/-- Measure (pytopo/sweep/base.py) with the dep_params fixture getter of
    tests/test_base.py: yield once the one-entry dictionary holding the
    value read from the current store. -/
def measureIter (name : String) (read : PStore → Int) : SweepIter :=
  fun s acc body => body [(name, read s)] s acc

/-- Nest._two_product (pytopo/sweep/base.py):
    for result2 in so2: for result1 in so1: result1.update(result2);
    yield result1. -/
def twoProduct (so1 so2 : SweepIter) : SweepIter :=
  fun s acc body =>
    so2 s acc (fun d2 s2 acc2 =>
      so1 s2 acc2 (fun d1 s1 acc1 => body (dictUpdate d1 d2) s1 acc1))

/-- Nest._generator_factory (pytopo/sweep/base.py): prod starts as the
    first sweep object and every further object so becomes
    prod = two_product(so, prod). -/
def nestIter (so : SweepIter) (sos : List SweepIter) : SweepIter :=
  sos.foldl (fun prod so2 => twoProduct so2 prod) so

/-- list(sweep_object): run the iteration collecting every yield. -/
def sweepList (so : SweepIter) : List PDict :=
  (so [] [] (fun d s acc => (s, acc ++ [d]))).2

/-- The loop body that iterating Nest(Sweep x, Sweep y, Measure i) runs
    for one inner point: what nestIter below unfolds to at the y level. -/
def innerStep (f : Int → Int → Int) (xv : Int) :
    PStore × List PDict → Int → PStore × List PDict :=
  fun st2 yv =>
    (PStore.set st2.1 "y" yv,
     st2.2 ++ [dictUpdate
       [("i", f (PStore.get (PStore.set st2.1 "y" yv) "x")
                (PStore.get (PStore.set st2.1 "y" yv) "y"))]
       (dictUpdate [("y", yv)] [("x", xv)])])

/-- The loop body at the outer x level of the same nest. -/
def outerStep (f : Int → Int → Int) (ys : List Int) :
    PStore × List PDict → Int → PStore × List PDict :=
  fun st xv => ys.foldl (innerStep f xv) (PStore.set st.1 "x" xv, st.2)

/-- BaseAcqCtl.handle_buffer on the averaging path with a single block
    (buffers_per_block unset, so _cur_block_idx = 0): for RawAcqCtl
    process_buffer is the identity, and data[0:n] += buf accumulates into
    the uint16 card array of a 12-bit card, wrapping modulo 2^16. Arrays
    are the flat C-order element lists; reshape is index bookkeeping. -/
def handle_buffer_avg (data buf : List Nat) : List Nat :=
  List.zipWith (fun a b => (a + b) % 65536) data buf

/-- One acquisition: setup_acquisition zeroes data[:data_size] and the
    card then hands each of the buffers to handle_buffer. -/
def acquire_avg (n : Nat) (buffers : List (List Nat)) : List Nat :=
  buffers.foldl handle_buffer_avg (List.replicate n 0)

/-- RawAcqCtl.data_shape on the averaging path:
    (_nblocks, 1, records_per_buffer, samples_per_record, channels). -/
def RawAcqCtl_data_shape_avg (nblocks records samples channels : Nat) :
    List Nat :=
  [nblocks, 1, records, samples, channels]

/-- RawAcqCtl.post_acquire for a 12-bit card on the averaging path with
    _nblocks = 1, element-wise on the flat array (the last axis is the two
    channels, so the range of flat element i is that of channel i mod 2):
    right shift the stored value by 4, convert to volts with the channel
    range, then divide by buffers_per_acquisition and multiply by the
    single block. The float32 arithmetic is modelled over the rationals. -/
def RawAcqCtl_post_acquire_avg (rng1 rng2 : ℚ) (B : Nat) (data : List Nat) :
    List ℚ :=
  data.enum.map (fun p =>
    ((((p.2 / 16 : Nat) : ℚ) / 4096 - 1/2) * 2 *
      (if p.1 % 2 = 0 then rng1 else rng2)) / (B : ℚ))

/-- A full averaged raw acquisition of the given buffers with
    records * samples * 2 elements per buffer. -/
def rawAcq_avg (records samples : Nat) (rng1 rng2 : ℚ)
    (buffers : List (List Nat)) : List ℚ :=
  RawAcqCtl_post_acquire_avg rng1 rng2 buffers.length
    (acquire_avg (records * samples * 2) buffers)

/-- The behaviour the claim states, written from its words for comparison:
    the element-wise arithmetic mean over the buffers of the per-buffer
    voltage-converted samples. -/
def c3_claim_mean (rng1 rng2 : ℚ) (n : Nat) (buffers : List (List Nat)) :
    List ℚ :=
  (List.range n).map (fun i =>
    (buffers.map (fun b =>
      ((((b.getD i 0 / 16 : Nat) : ℚ) / 4096 - 1/2) * 2 *
        (if i % 2 = 0 then rng1 else rng2)))).sum / (buffers.length : ℚ))

/-- C6: of the five abstract methods named by the claim, the three in
    pytopo/sweep/base.py and pytopo/rf/alazar/acquisition_controllers.py
    do raise NotImplementedError, but Transformation.forward and
    Transformation.backward execute raise NotImplemented, so calling them
    raises TypeError instead of the NotImplementedError the claim (and the
    spec) state. -/
theorem c6_abstract_methods_divergence :
    BaseSweepObject_generator_factory =
      .error (.notImplementedError "Please subclass BaseSweepObject")
    ∧ BaseAcqCtl_data_shape = .error (.notImplementedError "")
    ∧ BaseAcqCtl_process_buffer = .error (.notImplementedError "")
    ∧ (∀ v : Int,
        Transformation_forward v =
          .error (.typeError "exceptions must derive from BaseException")
        ∧ Transformation_backward v =
          .error (.typeError "exceptions must derive from BaseException")
        ∧ ∀ msg, Transformation_forward v ≠ .error (.notImplementedError msg)) := by
  refine ⟨rfl, rfl, rfl, fun v => ⟨rfl, rfl, fun msg h => ?_⟩⟩
  simp [Transformation_forward, pyRaise] at h

/-- C8: the pin-map transformations invert along a round-trip, and the
    unity transformation is the identity in both directions. -/
theorem c8_transformations_invert :
    (∀ v : Int,
      AddOneTransformation_backward (AddOneTransformation_forward v) = v
      ∧ AddOneTransformation_forward (AddOneTransformation_backward v) = v)
    ∧ (∀ v : Int,
      UnityTransformation_forward v = v ∧ UnityTransformation_backward v = v) := by
  refine ⟨fun v => ⟨?_, ?_⟩, fun v => ⟨rfl, rfl⟩⟩ <;>
    simp [AddOneTransformation_forward, AddOneTransformation_backward]

theorem firstOcc?_some_bound {s sep : List Char} {i : Nat}
    (hsep : sep ≠ []) (h : firstOcc? s sep = some i) :
    i + sep.length ≤ s.length ∧ 1 ≤ sep.length := by
  have hp : occursAt s sep i = true := List.find?_some h
  have hq : (s.drop i).take sep.length = sep := of_decide_eq_true hp
  have hlen := congrArg List.length hq
  simp [List.length_take, List.length_drop] at hlen
  have hpos : 0 < sep.length := List.length_pos.mpr hsep
  omega

theorem charSplitAux_fuel {sep : List Char} (hsep : sep ≠ []) :
    ∀ (n : Nat) (s : List Char) (fuel fuel' : Nat),
      s.length < fuel → s.length < fuel' → s.length ≤ n →
      charSplitAux sep fuel s = charSplitAux sep fuel' s := by
  intro n
  induction n with
  | zero =>
    intro s fuel fuel' h h' hn
    match fuel, fuel' with
    | f + 1, f' + 1 =>
      simp only [charSplitAux]
      match hocc : firstOcc? s sep with
      | none => rfl
      | some i =>
        have := firstOcc?_some_bound hsep hocc
        omega
  | succ n ih =>
    intro s fuel fuel' h h' hn
    match fuel, fuel' with
    | f + 1, f' + 1 =>
      simp only [charSplitAux]
      match hocc : firstOcc? s sep with
      | none => rfl
      | some i =>
        have hb := firstOcc?_some_bound hsep hocc
        have hdl : (s.drop (i + sep.length)).length = s.length - (i + sep.length) :=
          List.length_drop _ _
        have := ih (s.drop (i + sep.length)) f f' (by omega) (by omega) (by omega)
        simp [this]

/-- C5: _get_next_data_idx never raises on a malformed file name: stems
    whose index fails to parse are skipped without any effect on the
    result, the result is -#0000 when the folder does not exist or no stem
    parses, and otherwise -# followed by the maximum parsed index plus one,
    zero-padded to four digits. -/
theorem c5_get_next_data_idx (pfx s : String) (stems l1 l2 : List String) :
    get_next_data_idx none pfx = "-#0000"
    ∧ (stems.filterMap (parseIdx? pfx) = [] →
        get_next_data_idx (some stems) pfx = "-#0000")
    ∧ (∀ m : Int, (stems.filterMap (parseIdx? pfx)).max? = some m →
        get_next_data_idx (some stems) pfx = "-#" ++ zfill (toString (m + 1)) 4)
    ∧ (parseIdx? pfx s = none →
        get_next_data_idx (some (l1 ++ s :: l2)) pfx =
          get_next_data_idx (some (l1 ++ l2)) pfx) := by
  refine ⟨rfl, fun h => ?_, fun m hm => ?_, fun hskip => ?_⟩
  · simp only [get_next_data_idx, h]
    decide
  · match hfm : stems.filterMap (parseIdx? pfx) with
    | [] => simp [hfm, List.max?] at hm
    | i :: is =>
      simp [hfm, List.max?] at hm
      simp [get_next_data_idx, hfm, hm, DATAIDXPAD]
  · simp [get_next_data_idx, List.filterMap_append, List.filterMap_cons, hskip]

/-- Concrete instance of c5_get_next_data_idx: among the stems
    m-#0007_a and zz only the first parses (with index 7) so the next
    index string is -#0008, and inserting the non-parsing stem bad in
    front of m-#1_b leaves the result unchanged. -/
theorem c5_get_next_data_idx_witness :
    get_next_data_idx (some ["m-#0007_a", "zz"]) "m" = "-#0008"
    ∧ get_next_data_idx (some ["bad", "m-#1_b"]) "m" =
        get_next_data_idx (some ["m-#1_b"]) "m" := by
  constructor
  · have h := (c5_get_next_data_idx "m" "zz" ["m-#0007_a", "zz"] [] []).2.2.1
      7 (by decide)
    exact h.trans (by decide)
  · exact (c5_get_next_data_idx "m" "bad" [] [] ["m-#1_b"]).2.2.2 (by decide)

/-- C4: QcodesParamSpec raises ValueError exactly when the paramtype is
    not a string, or its lower-cased form is not an allowed type, or the
    name is not a valid identifier, or inferred_from or depends_on is a
    bare string; every failure is a ValueError, and a successful
    construction stores the lower-cased paramtype and the dependency names
    of the given QcodesParamSpecs or strings. -/
theorem c4_paramspec_init (name : String) (paramtype : PyStrArg)
    (label unit : Option String) (ifr dep : DepsArg) :
    ((∃ msg, QcodesParamSpec_init name paramtype label unit ifr dep =
        .error (.valueError msg)) ↔
      (paramtype = .nonStr
        ∨ (∃ pt, paramtype = .str pt ∧ pyLower pt ∉ allowed_types)
        ∨ pyIsIdentifier name = false
        ∨ (∃ s, ifr = .bareStr s)
        ∨ (∃ s, dep = .bareStr s)))
    ∧ (∀ ps, QcodesParamSpec_init name paramtype label unit ifr dep = .ok ps →
        (∃ pt, paramtype = .str pt ∧ ps.type = pyLower pt)
        ∧ ps.inferred_from = depsArgNames ifr ∧ ps.depends_on = depsArgNames dep)
    ∧ ((∃ ps, QcodesParamSpec_init name paramtype label unit ifr dep = .ok ps)
        ∨ (∃ msg, QcodesParamSpec_init name paramtype label unit ifr dep =
            .error (.valueError msg))) := by
  rcases paramtype with pt | _
  · by_cases hmem : pyLower pt ∈ allowed_types
    · cases hid : pyIsIdentifier name
      · simp [QcodesParamSpec_init, hmem, hid, pyRaise]
      · rcases ifr with _ | s1 | l1 <;> rcases dep with _ | s2 | l2 <;>
          simp [QcodesParamSpec_init, hmem, hid, pyRaise]
    · simp [QcodesParamSpec_init, hmem, pyRaise]
  · simp [QcodesParamSpec_init, pyRaise]

/-- Concrete instance of c4_paramspec_init: a name starting with a digit
    is rejected with ValueError, and a mixed-case paramtype Numeric is
    accepted and stored lower-cased with the dependency names of the
    given sequence. -/
theorem c4_paramspec_init_witness :
    (∃ msg, QcodesParamSpec_init "2bad" (.str "numeric") none none .none .none =
      .error (.valueError msg))
    ∧ (QcodesParamSpec_init "x" (.str "Numeric") none none
        (.seq [.str "a"]) (.seq [.spec ⟨"b", "numeric", "", "", [], []⟩]) =
        .ok ⟨"x", "numeric", "", "", ["a"], ["b"]⟩) := by
  constructor
  · exact (c4_paramspec_init "2bad" (.str "numeric") none none .none .none).1.mpr
      (Or.inr (Or.inr (Or.inl (by decide))))
  · rfl

theorem axisBlock_nonempty (n : String) (vals : List Int) (h : vals ≠ []) :
    axisBlock n vals =
      some [toString vals.length, toString (vals.headD 0),
            toString (vals.getLastD 0), n] := by
  match vals with
  | [] => exact absurd rfl h
  | v :: vs =>
    have hs : ((v :: vs).getLast?).isSome = true :=
      List.getLast?_isSome.mpr (by simp)
    obtain ⟨a, ha⟩ := Option.isSome_iff_exists.mp hs
    simp [axisBlock, ha]

theorem axisBlocks?_all_nonempty (l : List (Nat × String × List Int))
    (h : ∀ p ∈ l, p.2.2 ≠ []) :
    axisBlocks? l =
      some (l.map (fun t =>
        [toString t.2.2.length, toString (t.2.2.headD 0),
         toString (t.2.2.getLastD 0), t.2.1])) := by
  induction l with
  | nil => rfl
  | cons p ps ih =>
    have hp : p.2.2 ≠ [] := h p (List.mem_cons_self p ps)
    have hps : ∀ q ∈ ps, q.2.2 ≠ [] := fun q hq => h q (List.mem_cons_of_mem p hq)
    simp [axisBlocks?, axisBlock_nonempty _ _ hp, ih hps]

/-- C7: with one to three axes, all of them nonempty and one value list
    per axis, the .meta.txt contents are exactly one 4-line block per real
    axis (size, first value, last value, name), then 3 - naxes padding
    blocks 1/0/0/None, then one 2-line block per column carrying its
    1-based .dat column position starting at naxes + 1 and its name. -/
theorem c7_write_spyview_meta (axes_names : List String)
    (axes_vals : List (List Int)) (col_names : List String)
    (hlen : axes_vals.length = axes_names.length)
    (h1 : 1 ≤ axes_names.length) (h3 : axes_names.length ≤ 3)
    (hne : ∀ v ∈ axes_vals, v ≠ []) :
    write_spyview_meta axes_names axes_vals col_names =
      some ((axes_names.zip axes_vals).flatMap (fun p =>
              [toString p.2.length, toString (p.2.headD 0),
               toString (p.2.getLastD 0), p.1])
        ++ (List.replicate (3 - axes_names.length) ["1", "0", "0", "None"]).flatten
        ++ (col_names.enum.map (fun p =>
              [toString (axes_names.length + 1 + p.1), p.2])).flatten) := by
  unfold write_spyview_meta
  have hzlen : (axes_names.zip axes_vals).length = axes_names.length := by
    simp [List.length_zip, hlen]
  have hmap : axisBlocks? ((List.range axes_names.length).zip
      (axes_names.zip axes_vals)) =
      some (((List.range axes_names.length).zip
        (axes_names.zip axes_vals)).map (fun t =>
          [toString t.2.2.length, toString (t.2.2.headD 0),
           toString (t.2.2.getLastD 0), t.2.1])) := by
    apply axisBlocks?_all_nonempty
    intro p hp
    have hmem : p.2 ∈ axes_names.zip axes_vals := (List.of_mem_zip hp).2
    exact hne p.2.2 (List.of_mem_zip hmem).2
  rw [hmap, Option.map_some']
  have hfn : (fun t : Nat × String × List Int =>
      [toString t.2.2.length, toString (t.2.2.headD 0),
       toString (t.2.2.getLastD 0), t.2.1]) =
      ((fun p : String × List Int =>
        [toString p.2.length, toString (p.2.headD 0),
         toString (p.2.getLastD 0), p.1]) ∘ Prod.snd) := rfl
  have hsnd : ((List.range axes_names.length).zip (axes_names.zip axes_vals)).map
      Prod.snd = axes_names.zip axes_vals :=
    List.map_snd_zip _ _ (by simp [hzlen])
  have e1 : (((List.range axes_names.length).zip (axes_names.zip axes_vals)).map
      (fun t => [toString t.2.2.length, toString (t.2.2.headD 0),
                 toString (t.2.2.getLastD 0), t.2.1])).flatten =
      (axes_names.zip axes_vals).flatMap (fun p =>
        [toString p.2.length, toString (p.2.headD 0),
         toString (p.2.getLastD 0), p.1]) := by
    rw [hfn, ← List.map_map, hsnd]
    rfl
  have e2 : (((List.range' (axes_names.length + 1) col_names.length).zip
      col_names).map (fun p => [toString p.1, p.2])).flatten =
      (col_names.enum.map (fun p =>
        [toString (axes_names.length + 1 + p.1), p.2])).flatten := by
    rw [List.range'_eq_map_range, List.zip_map_left, List.map_map,
      List.enum_eq_zip_range]
    rfl
  rw [e1, e2]

/-- Concrete instance of c7_write_spyview_meta: two axes, two columns. -/
theorem c7_write_spyview_meta_witness :
    write_spyview_meta ["vx", "vy"] [[1, 2, 3], [5, 6]] ["I", "Q"] =
      some ["3", "1", "3", "vx", "2", "5", "6", "vy",
            "1", "0", "0", "None", "3", "I", "4", "Q"] := by
  have h := c7_write_spyview_meta ["vx", "vy"] [[1, 2, 3], [5, 6]] ["I", "Q"]
    (by decide) (by decide) (by decide) (by decide)
  exact h.trans (by decide)

theorem bagAdd_push (b : Bag) (k : String) (v : BagVal) :
    bagAdd (b ++ [([] : BagSection)]) k v = b ++ [[(k, v)]] := by
  simp [bagAdd, sectionSet, List.getLast?_concat, List.dropLast_concat]

theorem foldl_events (f : List (Bag × Bag) × Bag → BagVal → List (Bag × Bag) × Bag)
    (g : BagVal → List (Bag × Bag)) (b : Bag)
    (hf : ∀ es v, f (es, b) v = (es ++ g v, b)) :
    ∀ (vs : List BagVal) (es : List (Bag × Bag)),
      vs.foldl f (es, b) = (es ++ vs.flatMap g, b) := by
  intro vs
  induction vs with
  | nil => intro es; simp
  | cons v vs ih =>
    intro es
    rw [List.foldl_cons, hf, ih]
    simp

theorem sweep2_run_events (sweeps : List Sweep2) (bag : Bag) (mv : Bag → Bag)
    (hdef : ∀ sw ∈ sweeps, sw.set_function = id ∧ sw.prepare_function = id) :
    (sweep2_run sweeps bag mv).1 =
      (tuples (sweeps.map Sweep2.values)).map (fun t =>
        (bag ++ tupleSections (sweeps.map Sweep2.param_name) t,
         mv (bag ++ tupleSections (sweeps.map Sweep2.param_name) t))) := by
  induction sweeps generalizing bag with
  | nil => simp [sweep2_run, tuples, tupleSections]
  | cons sw rest ih =>
    obtain ⟨hset, hprep⟩ := hdef sw (List.mem_cons_self sw rest)
    have hrest : ∀ s ∈ rest, s.set_function = id ∧ s.prepare_function = id :=
      fun s hs => hdef s (List.mem_cons_of_mem sw hs)
    show (sw.values.foldl _ ([], sw.prepare_function bag)).1 = _
    rw [hprep]
    show (sw.values.foldl _ (([] : List (Bag × Bag)), bag)).1 = _
    rw [foldl_events _
      (fun v => (sweep2_run rest (bag ++ [[(sw.param_name, v)]]) mv).1) bag
      (by
        intro es v
        simp [bagAdd_push, hset, List.dropLast_concat])]
    simp only [List.nil_append, List.map_cons]
    show _ = (tuples (sw.values :: rest.map Sweep2.values)).map _
    rw [tuples.eq_def]
    simp only []
    rw [List.map_flatMap]
    refine congrArg sw.values.flatMap (funext fun v => ?_)
    rw [ih _ hrest, List.map_map]
    refine List.map_congr_left (fun t ht => ?_)
    have hb : (bag ++ [[(sw.param_name, v)]])
        ++ tupleSections (rest.map Sweep2.param_name) t =
        bag ++ tupleSections (sw.param_name :: rest.map Sweep2.param_name)
          (v :: t) := by
      simp [tupleSections, List.append_assoc]
    simp only [Function.comp]
    rw [hb]

theorem tuples_length (vss : List (List BagVal)) :
    ∀ t ∈ tuples vss, t.length = vss.length := by
  induction vss with
  | nil => intro t ht; simp [tuples] at ht; simp [ht]
  | cons vs rest ih =>
    intro t ht
    simp only [tuples, List.mem_flatMap, List.mem_map] at ht
    obtain ⟨v, hv, t', ht', rfl⟩ := ht
    simp [ih t' ht']

theorem val_for?_append (b s : Bag) (k : String) :
    val_for? (b ++ s) k =
      match val_for? s k with
      | some v => some v
      | none => val_for? b k := by
  induction b with
  | nil =>
    cases hv : val_for? s k <;> simp [val_for?, hv]
  | cons sec b' ih =>
    show (match val_for? (b' ++ s) k with
          | some v => some v
          | none => sec.lookup k) = _
    rw [ih]
    cases hv : val_for? s k
    · rfl
    · rfl

theorem val_for?_sections_none (pairs : List (String × BagVal)) (k : String)
    (h : ∀ p ∈ pairs, p.1 ≠ k) :
    val_for? (pairs.map (fun q => [q])) k = none := by
  induction pairs with
  | nil => rfl
  | cons p ps ih =>
    have hps : ∀ q ∈ ps, q.1 ≠ k := fun q hq => h q (List.mem_cons_of_mem p hq)
    have hp : p.1 ≠ k := h p (List.mem_cons_self p ps)
    simp only [List.map_cons, val_for?, ih hps]
    have hbeq : (k == p.1) = false := beq_eq_false_iff_ne.mpr (fun he => hp he.symm)
    simp [List.lookup, hbeq]

theorem val_for?_sections_mem (pairs : List (String × BagVal)) (k : String)
    (v : BagVal) (hnd : (pairs.map Prod.fst).Nodup) (hm : (k, v) ∈ pairs) :
    val_for? (pairs.map (fun q => [q])) k = some v := by
  induction pairs with
  | nil => simp at hm
  | cons p ps ih =>
    rcases List.mem_cons.mp hm with heq | hmem
    · have hp1 : p.1 = k := by rw [← heq]
      have hnotin : p.1 ∉ ps.map Prod.fst := (List.nodup_cons.mp hnd).1
      rw [hp1] at hnotin
      have hk : ∀ q ∈ ps, q.1 ≠ k := by
        intro q hq hqk
        have hq1 : q.1 ∈ ps.map Prod.fst := List.mem_map_of_mem Prod.fst hq
        rw [hqk] at hq1
        exact hnotin hq1
      simp only [List.map_cons, val_for?, val_for?_sections_none ps k hk]
      simp [List.lookup, ← heq]
    · have := ih (List.nodup_cons.mp hnd).2 hmem
      simp only [List.map_cons, val_for?, this]

/-- C10: with pass-through set functions and section-preserving prepare
    functions, running the sweeps leaves the bag exactly as it was: every
    BagSection pushed for a sweep value is popped again after the
    recursive call that used it. -/
theorem c10_run_preserves_bag (sweeps : List Sweep2) (bag : Bag)
    (mv : Bag → Bag)
    (hdef : ∀ sw ∈ sweeps, sw.set_function = id ∧ sw.prepare_function = id) :
    (sweep2_run sweeps bag mv).2 = bag := by
  match sweeps with
  | [] => rfl
  | sw :: rest =>
    obtain ⟨hset, hprep⟩ := hdef sw (List.mem_cons_self sw rest)
    show (sw.values.foldl _ ([], sw.prepare_function bag)).2 = bag
    rw [hprep]
    show (sw.values.foldl _ (([] : List (Bag × Bag)), bag)).2 = bag
    rw [foldl_events _
      (fun v => (sweep2_run rest (bag ++ [[(sw.param_name, v)]]) mv).1) bag
      (by
        intro es v
        simp [bagAdd_push, hset, List.dropLast_concat])]

/-- Concrete instance of c10_run_preserves_bag: one default sweep over two
    values started with a one-section bag ends with the same bag. -/
theorem c10_run_preserves_bag_witness :
    (sweep2_run [⟨"x", [0, 1], id, id⟩] [[("a", 3)]] id).2 = [[("a", 3)]] :=
  c10_run_preserves_bag [⟨"x", [0, 1], id, id⟩] [[("a", 3)]] id
    (by
      intro sw hsw
      simp only [List.mem_singleton] at hsw
      subst hsw
      exact ⟨rfl, rfl⟩)

/-- C2 (amended): for sweeps with the default pass-through set_function
    and effect-free prepare_function and pairwise distinct parameter
    names, run calls measure_v and then save_data exactly once per tuple
    of the Cartesian product of the value sequences, first sweep varying
    slowest, and at each call the bag binds every sweep's param_name to
    that sweep's value in the tuple. -/
theorem c2_run_cartesian (sweeps : List Sweep2) (bag : Bag) (mv : Bag → Bag)
    (hdef : ∀ sw ∈ sweeps, sw.set_function = id ∧ sw.prepare_function = id)
    (hnames : (sweeps.map Sweep2.param_name).Nodup) :
    (sweep2_run sweeps bag mv).1 =
      (tuples (sweeps.map Sweep2.values)).map (fun t =>
        (bag ++ tupleSections (sweeps.map Sweep2.param_name) t,
         mv (bag ++ tupleSections (sweeps.map Sweep2.param_name) t)))
    ∧ (∀ t ∈ tuples (sweeps.map Sweep2.values), t.length = sweeps.length)
    ∧ (∀ t ∈ tuples (sweeps.map Sweep2.values),
        ∀ p ∈ (sweeps.map Sweep2.param_name).zip t,
          val_for? (bag ++ tupleSections (sweeps.map Sweep2.param_name) t) p.1 =
            some p.2) := by
  refine ⟨sweep2_run_events sweeps bag mv hdef, ?_, ?_⟩
  · intro t ht
    have := tuples_length (sweeps.map Sweep2.values) t ht
    simpa using this
  · intro t ht p hp
    have htl : t.length = sweeps.length := by
      have := tuples_length (sweeps.map Sweep2.values) t ht
      simpa using this
    have hfst : ((sweeps.map Sweep2.param_name).zip t).map Prod.fst =
        sweeps.map Sweep2.param_name :=
      List.map_fst_zip _ _ (by simp [htl])
    have hnd : (((sweeps.map Sweep2.param_name).zip t).map Prod.fst).Nodup := by
      rw [hfst]; exact hnames
    rw [val_for?_append]
    simp only [tupleSections]
    rw [val_for?_sections_mem _ p.1 p.2 hnd hp]

/-- C2 counterexample: with a sweep whose set_function returns a fresh
    empty bag, the single measure_v call receives a bag that does not bind
    the sweep's param_name to the current value 0, contradicting the claim
    for arbitrary Sweeps. -/
theorem c2_counterexample :
    (sweep2_run [c2CexSweep] [] id).1 = [([], [])]
    ∧ ∃ ev ∈ (sweep2_run [c2CexSweep] [] id).1,
        val_for? ev.1 c2CexSweep.param_name ≠ some 0 := by
  refine ⟨rfl, ⟨([], []), ?_, ?_⟩⟩ <;> decide

/-- Concrete instance of c2_run_cartesian: two nested default sweeps over
    an initial one-section bag produce one measure/save pair per point of
    the Cartesian product, outer sweep varying slowest, with the pushed
    sections binding both names. -/
theorem c2_run_cartesian_witness :
    (sweep2_run [⟨"x", [0, 1], id, id⟩, ⟨"y", [5], id, id⟩] [[("z", 9)]] id).1 =
      [([[("z", 9)], [("x", 0)], [("y", 5)]], [[("z", 9)], [("x", 0)], [("y", 5)]]),
       ([[("z", 9)], [("x", 1)], [("y", 5)]], [[("z", 9)], [("x", 1)], [("y", 5)]])]
    ∧ val_for? ([[("z", 9)]] ++ tupleSections ["x", "y"] [0, 5]) "x" = some 0 := by
  have hdef : ∀ sw ∈ [(⟨"x", [0, 1], id, id⟩ : Sweep2), ⟨"y", [5], id, id⟩],
      sw.set_function = id ∧ sw.prepare_function = id := by
    intro sw hsw
    fin_cases hsw <;> exact ⟨rfl, rfl⟩
  have h := c2_run_cartesian [⟨"x", [0, 1], id, id⟩, ⟨"y", [5], id, id⟩]
    [[("z", 9)]] id hdef (by decide)
  refine ⟨h.1.trans (by decide), ?_⟩
  exact h.2.2 [0, 5] (by decide) ("x", 0) (by decide)

/-- C9: Nest raises TypeError exactly when a sweep object other than the
    last has a chain (more than one nest in its parameter table) or is
    measurable, and a successfully constructed Nest is measurable iff its
    last sweep object is. -/
theorem c9_nest_init (sos : List SweepObjMeta) :
    ((∃ msg, Nest_init sos = .error (.typeError msg)) ↔
      (∃ so ∈ sos.dropLast, has_chain so = true ∨ so.measurable = true))
    ∧ (∀ m, Nest_init sos = .ok m →
        ∃ last, sos.getLast? = some last ∧ m.measurable = last.measurable) := by
  by_cases h1 : sos.dropLast.any (fun so => has_chain so)
  · constructor
    · simp only [Nest_init, h1, if_true]
      constructor
      · intro _
        obtain ⟨so, hso, hchain⟩ := List.any_eq_true.mp h1
        exact ⟨so, hso, Or.inl hchain⟩
      · intro _
        exact ⟨"Cannot nest in chained sweep object", rfl⟩
    · intro m hm
      simp [Nest_init, h1, pyRaise] at hm
  · by_cases h2 : sos.dropLast.any (fun so => so.measurable)
    · constructor
      · simp only [Nest_init, h1, h2, if_true, if_false]
        constructor
        · intro _
          obtain ⟨so, hso, hmeas⟩ := List.any_eq_true.mp h2
          exact ⟨so, hso, Or.inr hmeas⟩
        · intro _
          exact ⟨"In a nest, only the last sweep object may be measurable", rfl⟩
      · intro m hm
        simp [Nest_init, h1, h2, pyRaise] at hm
    · have hnone : ¬ ∃ so ∈ sos.dropLast, has_chain so = true ∨ so.measurable = true := by
        rintro ⟨so, hso, hor⟩
        rcases hor with hc | hmeas
        · exact h1 (List.any_eq_true.mpr ⟨so, hso, hc⟩)
        · exact h2 (List.any_eq_true.mpr ⟨so, hso, hmeas⟩)
      constructor
      · simp only [Nest_init, h1, h2, if_false]
        constructor
        · intro ⟨msg, hmsg⟩
          exfalso
          match hlast : sos.getLast? with
          | none => rw [hlast] at hmsg; simp [pyRaise] at hmsg
          | some last => rw [hlast] at hmsg; simp [pyRaise] at hmsg
        · intro h
          exact absurd h hnone
      · intro m hm
        match hlast : sos.getLast? with
        | none => simp [Nest_init, h1, h2, hlast, pyRaise] at hm
        | some last =>
          simp only [Nest_init, h1, h2, hlast, Bool.false_eq_true, if_false] at hm
          refine ⟨last, rfl, ?_⟩
          rw [← Except.ok.inj hm]

/-- Concrete instance of c9_nest_init: a nest of a plain sweep followed by
    a measurable object succeeds and is measurable, and putting the
    measurable object first raises TypeError. -/
theorem c9_nest_init_witness :
    (∃ m, Nest_init [⟨⟨[["x"]]⟩, false⟩, ⟨⟨[["i"]]⟩, true⟩] = .ok m
       ∧ m.measurable = true)
    ∧ (∃ msg, Nest_init [⟨⟨[["i"]]⟩, true⟩, ⟨⟨[["x"]]⟩, false⟩] =
        .error (.typeError msg)) := by
  constructor
  · refine ⟨⟨⟨[["x", "i"]]⟩, true⟩, rfl, ?_⟩
    have h := (c9_nest_init [⟨⟨[["x"]]⟩, false⟩, ⟨⟨[["i"]]⟩, true⟩]).2
      ⟨⟨[["x", "i"]]⟩, true⟩ rfl
    obtain ⟨last, hlast, hmeas⟩ := h
    have h2 : some last = some (⟨⟨[["i"]]⟩, true⟩ : SweepObjMeta) :=
      hlast.symm.trans (by rfl)
    exact hmeas.trans (congrArg SweepObjMeta.measurable (Option.some.inj h2))
  · exact (c9_nest_init [⟨⟨[["i"]]⟩, true⟩, ⟨⟨[["x"]]⟩, false⟩]).1.mpr
      ⟨⟨⟨[["i"]]⟩, true⟩, by decide, Or.inr rfl⟩

theorem PStore.get_set_same (s : PStore) (k : String) (v : Int) :
    PStore.get (PStore.set s k v) k = v := by
  simp [PStore.get, PStore.set, List.lookup]

theorem PStore.get_set_ne (s : PStore) (k k' : String) (v : Int) (h : k' ≠ k) :
    PStore.get (PStore.set s k v) k' = PStore.get s k' := by
  simp [PStore.get, PStore.set, List.lookup, beq_eq_false_iff_ne.mpr h]

theorem dictUpdate_yx (yv xv : Int) :
    dictUpdate [("y", yv)] [("x", xv)] = [("y", yv), ("x", xv)] := rfl

theorem dictUpdate_iyx (iv yv xv : Int) :
    dictUpdate [("i", iv)] [("y", yv), ("x", xv)] =
      [("i", iv), ("y", yv), ("x", xv)] := rfl

theorem c1_inner_fold (f : Int → Int → Int) (xv : Int) (ys : List Int) :
    ∀ (s : PStore) (acc : List PDict), PStore.get s "x" = xv →
      (ys.foldl (innerStep f xv) (s, acc)).2 =
        acc ++ ys.map (fun yv => [("i", f xv yv), ("y", yv), ("x", xv)]) := by
  induction ys with
  | nil => intro s acc hx; simp
  | cons yv ys ih =>
    intro s acc hx
    have hgx : PStore.get (PStore.set s "y" yv) "x" = xv := by
      rw [PStore.get_set_ne s "y" "x" yv (by decide)]
      exact hx
    have hgy : PStore.get (PStore.set s "y" yv) "y" = yv :=
      PStore.get_set_same s "y" yv
    rw [List.foldl_cons]
    have hstep : innerStep f xv (s, acc) yv =
        (PStore.set s "y" yv,
         acc ++ [[("i", f xv yv), ("y", yv), ("x", xv)]]) := by
      simp only [innerStep, hgx, hgy, dictUpdate_yx, dictUpdate_iyx]
    rw [hstep, ih (PStore.set s "y" yv)
      (acc ++ [[("i", f xv yv), ("y", yv), ("x", xv)]]) hgx]
    simp

theorem c1_outer_fold (f : Int → Int → Int) (ys : List Int) (xs : List Int) :
    ∀ (s : PStore) (acc : List PDict),
      (xs.foldl (outerStep f ys) (s, acc)).2 =
        acc ++ xs.flatMap (fun xv => ys.map (fun yv =>
          [("i", f xv yv), ("y", yv), ("x", xv)])) := by
  induction xs with
  | nil => intro s acc; simp
  | cons xv xs ih =>
    intro s acc
    rw [List.foldl_cons]
    have h2 : (outerStep f ys (s, acc) xv).2 =
        acc ++ ys.map (fun yv => [("i", f xv yv), ("y", yv), ("x", xv)]) :=
      c1_inner_fold f xv ys (PStore.set s "x" xv) acc
        (PStore.get_set_same s "x" xv)
    have hpair : outerStep f ys (s, acc) xv =
        ((outerStep f ys (s, acc) xv).1,
         acc ++ ys.map (fun yv => [("i", f xv yv), ("y", yv), ("x", xv)])) := by
      rw [← h2]
    rw [hpair, ih]
    simp

/-- C1: iterating Nest(Sweep(x, xs), Sweep(y, ys), Measure(i)) yields one
    dictionary per element of the Cartesian product xs times ys, outer
    sweep varying slowest and inner fastest, each dictionary holding both
    set values and the value measured at that coordinate. -/
theorem c1_nest_cartesian (xs ys : List Int) (f : Int → Int → Int) :
    sweepList (nestIter (sweepIter "x" xs)
      [sweepIter "y" ys,
       measureIter "i" (fun s => f (PStore.get s "x") (PStore.get s "y"))]) =
      xs.flatMap (fun xv => ys.map (fun yv =>
        [("i", f xv yv), ("y", yv), ("x", xv)])) := by
  show (xs.foldl (outerStep f ys) ([], [])).2 = _
  exact c1_outer_fold f ys xs [] []

theorem getD_zipWith16 (as : List Nat) :
    ∀ (bs : List Nat) (i : Nat), i < as.length → i < bs.length →
    (List.zipWith (fun a b => (a + b) % 65536) as bs).getD i 0 =
      (as.getD i 0 + bs.getD i 0) % 65536 := by
  induction as with
  | nil => intro bs i h _; simp at h
  | cons a as ih =>
    intro bs i ha hb
    cases bs with
    | nil => simp at hb
    | cons b bs =>
      cases i with
      | zero => simp
      | succ i =>
        simp only [List.zipWith_cons_cons, List.getD_cons_succ]
        exact ih bs i (by simpa using ha) (by simpa using hb)

theorem foldl_handle_length (n : Nat) :
    ∀ (buffers : List (List Nat)), (∀ b ∈ buffers, b.length = n) →
      ∀ init : List Nat, init.length = n →
        (buffers.foldl handle_buffer_avg init).length = n := by
  intro buffers
  induction buffers with
  | nil => intro _ init h; simpa using h
  | cons b bs ih =>
    intro hb init h
    rw [List.foldl_cons]
    apply ih (fun q hq => hb q (List.mem_cons_of_mem b hq))
    simp [handle_buffer_avg, List.length_zipWith, h, hb b (List.mem_cons_self b bs)]

theorem foldl_handle_getD (n : Nat) (i : Nat) (hi : i < n) :
    ∀ (buffers : List (List Nat)), (∀ b ∈ buffers, b.length = n) →
      ∀ init : List Nat, init.length = n → init.getD i 0 < 65536 →
        (buffers.foldl handle_buffer_avg init).getD i 0 =
          (init.getD i 0 + (buffers.map (fun b => b.getD i 0)).sum) % 65536 := by
  intro buffers
  induction buffers with
  | nil =>
    intro _ init hlen hlt
    rw [List.foldl_nil, List.map_nil, List.sum_nil, Nat.add_zero,
      Nat.mod_eq_of_lt hlt]
  | cons b bs ih =>
    intro hb init hlen hlt
    rw [List.foldl_cons]
    have hblen : b.length = n := hb b (List.mem_cons_self b bs)
    have hlen2 : (handle_buffer_avg init b).length = n := by
      simp [handle_buffer_avg, List.length_zipWith, hlen, hblen]
    have hget : (handle_buffer_avg init b).getD i 0 =
        (init.getD i 0 + b.getD i 0) % 65536 :=
      getD_zipWith16 init b i (by omega) (by omega)
    have hlt2 : (handle_buffer_avg init b).getD i 0 < 65536 := by
      rw [hget]
      exact Nat.mod_lt _ (by omega)
    rw [ih (fun q hq => hb q (List.mem_cons_of_mem b hq)) _ hlen2 hlt2, hget,
      List.map_cons, List.sum_cons, Nat.mod_add_mod, Nat.add_assoc]

theorem acquire_avg_getD (n i : Nat) (hi : i < n) (buffers : List (List Nat))
    (hlen : ∀ b ∈ buffers, b.length = n) :
    (acquire_avg n buffers).getD i 0 =
      (buffers.map (fun b => b.getD i 0)).sum % 65536 := by
  unfold acquire_avg
  rw [foldl_handle_getD n i hi buffers hlen (List.replicate n 0) (by simp)
    (by simp [List.getD_eq_getElem?_getD, List.getElem?_replicate_of_lt hi])]
  simp [List.getD_eq_getElem?_getD, List.getElem?_replicate_of_lt hi]

theorem acquire_avg_length (n : Nat) (buffers : List (List Nat))
    (hlen : ∀ b ∈ buffers, b.length = n) :
    (acquire_avg n buffers).length = n :=
  foldl_handle_length n buffers hlen (List.replicate n 0) (by simp)

theorem post_acquire_avg_getD (rng1 rng2 : ℚ) (B : Nat) (data : List Nat)
    (i : Nat) (hi : i < data.length) :
    (RawAcqCtl_post_acquire_avg rng1 rng2 B data).getD i 0 =
      ((((data.getD i 0 / 16 : Nat) : ℚ) / 4096 - 1/2) * 2 *
        (if i % 2 = 0 then rng1 else rng2)) / (B : ℚ) := by
  unfold RawAcqCtl_post_acquire_avg
  rw [List.getD_eq_getElem?_getD, List.getElem?_map, List.getElem?_enum,
    List.getElem?_eq_getElem hi]
  simp [List.getD_eq_getElem?_getD, List.getElem?_eq_getElem hi]

theorem post_acquire_avg_length (rng1 rng2 : ℚ) (B : Nat) (data : List Nat) :
    (RawAcqCtl_post_acquire_avg rng1 rng2 B data).length = data.length := by
  simp [RawAcqCtl_post_acquire_avg]

/-- C3 (amended): on the averaging path with a single block, post_acquire
    returns, per flat element of the (1, 1, records, samples, channels)
    shape, the voltage conversion of the uint16-wrapped SUM of the raw
    buffers divided by B - the right shift by 4, the modulo 2^16 wrap and
    the -0.5 offset are applied to the accumulated sum before the division
    by B, so for B greater than 1 this is not the element-wise mean of the
    per-buffer conversions. -/
theorem c3_post_acquire_sum (records samples : Nat) (rng1 rng2 : ℚ)
    (buffers : List (List Nat))
    (hlen : ∀ b ∈ buffers, b.length = records * samples * 2) :
    (rawAcq_avg records samples rng1 rng2 buffers).length =
      (RawAcqCtl_data_shape_avg 1 records samples 2).prod
    ∧ RawAcqCtl_data_shape_avg 1 records samples 2 = [1, 1, records, samples, 2]
    ∧ (∀ i, i < records * samples * 2 →
        (rawAcq_avg records samples rng1 rng2 buffers).getD i 0 =
          (((((buffers.map (fun b => b.getD i 0)).sum % 65536) / 16 : Nat) : ℚ)
              / 4096 - 1/2) * 2 *
            (if i % 2 = 0 then rng1 else rng2) / (buffers.length : ℚ)) := by
  refine ⟨?_, rfl, ?_⟩
  · unfold rawAcq_avg
    rw [post_acquire_avg_length, acquire_avg_length _ _ hlen]
    simp [RawAcqCtl_data_shape_avg, List.prod]
    ring
  · intro i hi
    unfold rawAcq_avg
    have hdl : i < (acquire_avg (records * samples * 2) buffers).length := by
      rw [acquire_avg_length _ _ hlen]
      exact hi
    rw [post_acquire_avg_getD _ _ _ _ _ hdl, acquire_avg_getD _ _ hi _ hlen]

/-- C3 counterexample: two identical all-zero buffers of one record, one
    sample and two channels with unit ranges. The code returns -1/2 per
    element (the -0.5 offset is divided by B = 2), while the element-wise
    mean of the voltage-converted buffers claimed by the spec is -1. -/
theorem c3_counterexample :
    rawAcq_avg 1 1 1 1 [[0, 0], [0, 0]] = [-(1/2 : ℚ), -(1/2 : ℚ)]
    ∧ c3_claim_mean 1 1 2 [[0, 0], [0, 0]] = [-(1 : ℚ), -(1 : ℚ)]
    ∧ rawAcq_avg 1 1 1 1 [[0, 0], [0, 0]] ≠
        c3_claim_mean 1 1 2 [[0, 0], [0, 0]] := by
  have hacq : acquire_avg (1 * 1 * 2) [[0, 0], [0, 0]] = [0, 0] := by decide
  have hA : rawAcq_avg 1 1 1 1 [[0, 0], [0, 0]] = [-(1/2 : ℚ), -(1/2 : ℚ)] := by
    unfold rawAcq_avg
    rw [hacq]
    norm_num [RawAcqCtl_post_acquire_avg, List.enum, List.enumFrom]
  have hrange : List.range 2 = [0, 1] := rfl
  have hB : c3_claim_mean 1 1 2 [[0, 0], [0, 0]] = [-(1 : ℚ), -(1 : ℚ)] := by
    unfold c3_claim_mean
    rw [hrange]
    norm_num
  refine ⟨hA, hB, ?_⟩
  intro h
  rw [hA, hB] at h
  have h1 : -(1/2 : ℚ) = -1 := (List.cons.injEq _ _ _ _).mp h |>.1
  norm_num at h1

/-- Concrete instance of c3_post_acquire_sum: two buffers with nonzero
    samples and distinct channel ranges. -/
theorem c3_post_acquire_sum_witness :
    (rawAcq_avg 1 1 1 2 [[16, 32], [48, 64]]).getD 0 0 = -(511/1024 : ℚ) := by
  have h := (c3_post_acquire_sum 1 1 1 2 [[16, 32], [48, 64]]
    (by decide)).2.2 0 (by decide)
  refine h.trans ?_
  have hsum : (([[16, 32], [48, 64]].map (fun b => b.getD 0 0)).sum % 65536)
      / 16 = 4 := by decide
  rw [hsum]
  norm_num
